import Mathlib

/-!
Verification development for the pet-adoption EDA dashboard (src/app.py).

The app is a linear Streamlit script: load a CSV into a dataframe, render
an overview, a head-preview controlled by a slider, descriptive statistics
via describe(include="all"), dtypes and missing-value tables, a Pearson
correlation matrix over the int64/float64 columns, a StandardScaler
z-score transform of those columns, and a 2-component PCA with its
explained-variance fractions.

The embedding below models the dataframe as a list of named, typed columns
(int64 / float64 / object), and each pipeline stage as a function of that
structure, following the semantics of the library calls the script makes
(pandas head / describe / select_dtypes / corr, sklearn StandardScaler /
PCA).  Exact arithmetic is used: rational numbers for the data and for all
moment computations, real numbers where square roots or eigenvalues enter
(standard deviations, Pearson denominators, PCA spectra).  Division by
zero in the model is the junk value 0 and stands for the NaN that the
floating-point pipeline would produce at the same place.
-/

set_option maxHeartbeats 1000000

/-! ## Data model: columns and datasets -/

/-- The values of one dataframe column together with its declared dtype:
pandas int64, float64 or object (text). -/
inductive ColVals where
  | int64 (vs : List ℤ)
  | float64 (vs : List ℚ)
  | obj (vs : List String)
deriving DecidableEq

/-- Number of entries in the column. -/
def ColVals.length : ColVals → ℕ
  | .int64 vs => vs.length
  | .float64 vs => vs.length
  | .obj vs => vs.length

/-- The dtype display string, as pandas would report it. -/
def ColVals.dtypeStr : ColVals → String
  | .int64 _ => "int64"
  | .float64 _ => "float64"
  | .obj _ => "object"

/-- Whether the declared type is integer or floating-point. -/
def ColVals.isNumeric : ColVals → Bool
  | .int64 _ => true
  | .float64 _ => true
  | .obj _ => false

/-- The column values as exact rationals (empty for an object column). -/
def ColVals.numVals : ColVals → List ℚ
  | .int64 vs => vs.map (Int.cast : ℤ → ℚ)
  | .float64 vs => vs
  | .obj _ => []

/-- The first n entries of the column (pandas head acting columnwise). -/
def ColVals.take (n : ℕ) : ColVals → ColVals
  | .int64 vs => .int64 (vs.take n)
  | .float64 vs => .float64 (vs.take n)
  | .obj vs => .obj (vs.take n)

/-- A named dataframe column. -/
structure Column where
  name : String
  vals : ColVals
deriving DecidableEq

/-- The loaded dataframe: ordered named columns and a row count. -/
structure Dataset where
  cols : List Column
  nrows : ℕ
deriving DecidableEq

/-- A dataframe is rectangular: every column has exactly nrows entries. -/
def Dataset.Wellformed (ds : Dataset) : Prop :=
  ∀ c ∈ ds.cols, c.vals.length = ds.nrows

instance (ds : Dataset) : Decidable ds.Wellformed := by
  unfold Dataset.Wellformed; infer_instance

/-- The column-name listing (section 1 of the script). -/
def Dataset.colNames (ds : Dataset) : List String := ds.cols.map (·.name)

/-- df.head(n): the first n rows, in original row order (section 2). -/
def Dataset.head (ds : Dataset) (n : ℕ) : Dataset :=
  { cols := ds.cols.map (fun c => { name := c.name, vals := c.vals.take n }),
    nrows := min n ds.nrows }

/-! ## Rational column statistics -/

/-- Mean of a column of rationals (0 on an empty column, standing for NaN). -/
def colMean (v : List ℚ) : ℚ := v.sum / v.length

/-- The column with its mean subtracted from every entry. -/
def colCentered (v : List ℚ) : List ℚ := v.map (fun x => x - colMean v)

/-- Dot product of two rational columns (truncating to the shorter one). -/
def dotL (a b : List ℚ) : ℚ := (List.zipWith (fun x y => x * y) a b).sum

/-- Population variance (divide by n), the quantity StandardScaler uses. -/
def popVar (v : List ℚ) : ℚ := dotL (colCentered v) (colCentered v) / v.length

/-- Ascending sort of a rational column. -/
def sortQ (v : List ℚ) : List ℚ := List.insertionSort (fun x y => x ≤ y) v

/-- Linear-interpolation quantile on the sorted column, as numpy percentile
computes it for describe: index h = q(n-1), value s[⌊h⌋] + (h-⌊h⌋)(s[⌊h⌋+1]-s[⌊h⌋]). -/
def quantileQ (v : List ℚ) (q : ℚ) : ℚ :=
  let s := sortQ v
  let h : ℚ := q * ((s.length : ℚ) - 1)
  let lo := h.floor.toNat
  s.getD lo 0 + (h - h.floor) * (s.getD (lo + 1) 0 - s.getD lo 0)

/-- The most frequent value of an object column and its frequency
(first occurrence in dedup order wins ties), pandas top/freq. -/
def modeOf (vs : List String) : Option (String × ℕ) :=
  vs.dedup.foldl
    (fun acc s =>
      match acc with
      | none => some (s, vs.count s)
      | some (t, k) => if k < vs.count s then some (s, vs.count s) else some (t, k))
    none

/-! ## Section 3: describe(include="all") -/

/-- Statistic rows describe produces for a numeric column. -/
def numericStatNames : List String :=
  ["count", "mean", "std", "min", "25%", "50%", "75%", "max"]

/-- Statistic rows describe produces for an object column. -/
def objectStatNames : List String :=
  ["count", "unique", "top", "freq"]

/-- Statistic rows of describe(include="all") on a mixed dataframe, in
pandas display order. -/
def mixedStatNames : List String :=
  ["count", "unique", "top", "freq", "mean", "std", "min", "25%", "50%", "75%", "max"]

/-- Does the dataframe have a numeric (int64/float64) column? -/
def Dataset.hasNumericCol (ds : Dataset) : Bool := ds.cols.any (·.vals.isNumeric)

/-- Does the dataframe have an object column? -/
def Dataset.hasObjectCol (ds : Dataset) : Bool := ds.cols.any (fun c => !c.vals.isNumeric)

/-- The row set of describe(include="all"): the union of the statistic
names of the column types actually present. -/
def describeStatNames (ds : Dataset) : List String :=
  if ds.hasNumericCol && ds.hasObjectCol then mixedStatNames
  else if ds.hasNumericCol then numericStatNames
  else objectStatNames

/-- One cell of the describe table: a number or a text value. -/
inductive DescCell where
  | num (x : ℝ)
  | str (s : String)

/-- The describe cell of a numeric column at a given statistic row; none is
the NaN pandas renders where the statistic is undefined (unique/top/freq on
a numeric column, moments of an empty column, sample std of fewer than two
values). -/
noncomputable def descEntryNum (stat : String) (v : List ℚ) : Option DescCell :=
  if stat = "count" then some (.num (v.length : ℝ))
  else if stat = "mean" then if v.length = 0 then none else some (.num ((colMean v : ℚ) : ℝ))
  else if stat = "std" then
    if v.length < 2 then none
    else some (.num (Real.sqrt (((dotL (colCentered v) (colCentered v) : ℚ) : ℝ) / ((v.length : ℝ) - 1))))
  else if stat = "min" then (sortQ v).head?.map (fun x => .num ((x : ℚ) : ℝ))
  else if stat = "25%" then if v.length = 0 then none else some (.num ((quantileQ v (1/4) : ℚ) : ℝ))
  else if stat = "50%" then if v.length = 0 then none else some (.num ((quantileQ v (1/2) : ℚ) : ℝ))
  else if stat = "75%" then if v.length = 0 then none else some (.num ((quantileQ v (3/4) : ℚ) : ℝ))
  else if stat = "max" then (sortQ v).getLast?.map (fun x => .num ((x : ℚ) : ℝ))
  else none

/-- The describe cell of an object column at a given statistic row; none is
the NaN pandas renders for numeric-only statistics such as mean. -/
def descEntryObj (stat : String) (vs : List String) : Option DescCell :=
  if stat = "count" then some (.num (vs.length : ℝ))
  else if stat = "unique" then some (.num (vs.dedup.length : ℝ))
  else if stat = "top" then (modeOf vs).map (fun p => .str p.1)
  else if stat = "freq" then (modeOf vs).map (fun p => .num (p.2 : ℝ))
  else none

/-- The describe cell of a column at a statistic row. -/
noncomputable def descEntry (stat : String) (c : Column) : Option DescCell :=
  match c.vals with
  | .obj vs => descEntryObj stat vs
  | .int64 vs => descEntryNum stat (ColVals.numVals (.int64 vs))
  | .float64 vs => descEntryNum stat vs

/-- describe(include="all"): the statistic row names together with one
column of cells per dataframe column (line 85 of the script). -/
noncomputable def describe_all (ds : Dataset) :
    List String × List (String × List (Option DescCell)) :=
  (describeStatNames ds,
   ds.cols.map (fun c => (c.name, (describeStatNames ds).map (fun s => descEntry s c))))

/-! ## Section 6: numeric feature detection and correlation -/

/-- The dtype strings select_dtypes is asked to include at line 126. -/
def selectDtypesInclude : List String := ["int64", "float64"]

/-- numeric_features (line 126): names of the columns whose dtype string is
int64 or float64, in original column order. -/
def numeric_features (ds : Dataset) : List String :=
  (ds.cols.filter (fun c => selectDtypesInclude.contains c.vals.dtypeStr)).map (·.name)

/-- The rational value columns of the numeric feature subset, in order. -/
def numericColVals (ds : Dataset) : List (List ℚ) :=
  (ds.cols.filter (fun c => selectDtypesInclude.contains c.vals.dtypeStr)).map (·.vals.numVals)

/-- Sample covariance of two columns (pandas divides by n-1). -/
noncomputable def sampleCov (x y : List ℚ) : ℝ :=
  ((dotL (colCentered x) (colCentered y) : ℚ) : ℝ) / ((x.length : ℝ) - 1)

/-- Sample standard deviation of a column (pandas, ddof = 1). -/
noncomputable def sampleStd (x : List ℚ) : ℝ :=
  Real.sqrt (((dotL (colCentered x) (colCentered x) : ℚ) : ℝ) / ((x.length : ℝ) - 1))

/-- Pearson correlation coefficient of two columns as pandas corr computes
it: sample covariance over the product of sample standard deviations.  A
zero denominator (constant column) gives the junk value 0, standing for
the NaN pandas produces there. -/
noncomputable def pearson (x y : List ℚ) : ℝ :=
  sampleCov x y / (sampleStd x * sampleStd y)

/-- corr_matrix (line 136): the Pearson matrix over the numeric feature
subset; entry (i, j) correlates the i-th and j-th numeric columns. -/
noncomputable def corr_matrix (ds : Dataset) (i j : ℕ) : ℝ :=
  pearson ((numericColVals ds).getD i []) ((numericColVals ds).getD j [])

/-! ## Section 7: StandardScaler -/

/-- The per-column divisor StandardScaler fits: the population standard
deviation, except that a zero deviation (constant column) is replaced by
the unit divisor 1 (sklearn handle-zeros-in-scale). -/
noncomputable def scaleOf (v : List ℚ) : ℝ :=
  if popVar v = 0 then 1 else Real.sqrt ((popVar v : ℚ) : ℝ)

/-- scaler.fit_transform on one column: center by the mean, divide by the
fitted scale. -/
noncomputable def standardizeCol (v : List ℚ) : List ℝ :=
  (colCentered v).map (fun x => ((x : ℚ) : ℝ) / scaleOf v)

/-- df_standardized (lines 170 to 177): every numeric column standardized. -/
noncomputable def df_standardized (ds : Dataset) : List (List ℝ) :=
  (numericColVals ds).map standardizeCol

/-! ## Real-valued column statistics (for the transformed data) -/

/-- Mean of a real column. -/
noncomputable def colMeanR (v : List ℝ) : ℝ := v.sum / v.length

/-- A real column with its mean subtracted. -/
noncomputable def colCenteredR (v : List ℝ) : List ℝ := v.map (fun x => x - colMeanR v)

/-- Dot product of real columns. -/
noncomputable def dotR (a b : List ℝ) : ℝ := (List.zipWith (fun x y => x * y) a b).sum

/-- Population variance of a real column. -/
noncomputable def popVarR (v : List ℝ) : ℝ := dotR (colCenteredR v) (colCenteredR v) / v.length

/-- Population standard deviation of a real column. -/
noncomputable def popStdR (v : List ℝ) : ℝ := Real.sqrt (popVarR v)

/-! ## Section 8: PCA -/

/-- The matrix PCA decomposes: the standardized numeric data, one row per
sample and one column per numeric feature, re-centered columnwise as the
PCA fit does. -/
noncomputable def pcaMatrix (ds : Dataset) : Matrix (Fin ds.nrows) (Fin (numericColVals ds).length) ℝ :=
  Matrix.of fun t j => (colCenteredR (standardizeCol ((numericColVals ds).get j))).getD t 0

/-- The scatter (Gram) matrix of the centered data; its eigenvalues divided
by n-1 are the PCA explained variances. -/
noncomputable def pcaGram (ds : Dataset) :
    Matrix (Fin (numericColVals ds).length) (Fin (numericColVals ds).length) ℝ :=
  Matrix.conjTranspose (pcaMatrix ds) * pcaMatrix ds

theorem pcaGram_posSemidef (ds : Dataset) : (pcaGram ds).PosSemidef :=
  Matrix.posSemidef_conjTranspose_mul_self (pcaMatrix ds)

/-- The spectrum of the scatter matrix sorted in descending order, the
order in which PCA reports its components. -/
noncomputable def pcaEigsSorted (ds : Dataset) : List ℝ :=
  List.insertionSort (fun a b => b ≤ a) (List.ofFn (pcaGram_posSemidef ds).1.eigenvalues)

/-- explained_variance of component i: the i-th largest scatter eigenvalue
over n-1. -/
noncomputable def explained_variance (ds : Dataset) (i : ℕ) : ℝ :=
  (pcaEigsSorted ds).getD i 0 / ((ds.nrows : ℝ) - 1)

/-- explained_variance_ratio of component i (line 218): the component
variance over the total variance of all components. -/
noncomputable def explained_variance_ratio (ds : Dataset) (i : ℕ) : ℝ :=
  explained_variance ds i / ((pcaEigsSorted ds).sum / ((ds.nrows : ℝ) - 1))

/-- The explained-variance fraction as the floating-point pipeline reports
it: a real number only when the total variance it is divided by is
nonzero; none models the NaN that the 0/0 division produces when every
standardized column is constant (the eigenvalues are nonnegative, so with
a positive row count the divisor is zero exactly on that degenerate
case). -/
noncomputable def explained_variance_ratio_or_nan (ds : Dataset) (i : ℕ) : Option ℝ :=
  if (pcaEigsSorted ds).sum / ((ds.nrows : ℝ) - 1) = 0 then none
  else some (explained_variance_ratio ds i)

/-! ## The whole page render, top to bottom -/

/-- Everything the script renders on one run. -/
structure RenderOut where
  shape : ℕ × ℕ
  colNames : List String
  preview : Dataset
  describeTable : List String × List (String × List (Option DescCell))
  dtypesTable : List (String × String)
  missingTable : List (String × ℕ)
  numericFeats : List String
  corrHeat : ℕ → ℕ → ℝ
  stdPreview : List (List ℝ)
  pcaVarFracs : ℝ × ℝ

/-- One top-to-bottom render of the script on the loaded dataframe and the
two slider values.  The script has no try/except: the first library error
aborts the render.  With zero numeric columns the seaborn heatmap call
raises; StandardScaler requires at least one feature; PCA(n_components=2)
requires 2 <= min(n_samples, n_features).  Model datasets carry no nulls,
so the missing-value table is all zeros. -/
noncomputable def appRender (ds : Dataset) (n1 n2 : ℕ) : Except String RenderOut :=
  if (numeric_features ds).length = 0 then
    Except.error "seaborn heatmap: zero-size array to reduction operation"
  else if (numeric_features ds).length < 1 then
    Except.error "StandardScaler: a minimum of 1 feature is required"
  else if 2 ≤ min ds.nrows (numeric_features ds).length then
    Except.ok
      { shape := (ds.nrows, ds.cols.length)
        colNames := ds.colNames
        preview := ds.head n1
        describeTable := describe_all ds
        dtypesTable := ds.cols.map (fun c => (c.name, c.vals.dtypeStr))
        missingTable := ds.cols.map (fun c => (c.name, 0))
        numericFeats := numeric_features ds
        corrHeat := corr_matrix ds
        stdPreview := (df_standardized ds).map (fun col => col.take n2)
        pcaVarFracs := (explained_variance_ratio ds 0, explained_variance_ratio ds 1) }
  else
    Except.error "PCA: n_components=2 must be between 0 and min(n_samples, n_features)"

/-- One user interaction: the cached loader (st.cache_data) returns the
memoized dataframe when present, otherwise parses the source; then the
whole script re-runs.  Returns the new cache and the render result. -/
noncomputable def runOnce (src : Dataset) (cache : Option Dataset) (n1 n2 : ℕ) :
    Option Dataset × Except String RenderOut :=
  match cache with
  | some df => (some df, appRender df n1 n2)
  | none => (some src, appRender src n1 n2)

/-! ## A constancy predicate and concrete datasets used as test inputs -/

/-- A column whose value is the same in every row. -/
def isConstCol (v : List ℚ) : Prop := ∀ x ∈ v, x = v.headD 0

instance (v : List ℚ) : Decidable (isConstCol v) := by
  unfold isConstCol; infer_instance

/-- A small mixed dataframe: two non-constant numeric columns and one text
column, three rows. -/
def dsMix : Dataset :=
  { cols := [ { name := "age", vals := .float64 [1, 2, 3] },
              { name := "species", vals := .obj ["cat", "dog", "cat"] },
              { name := "fee", vals := .int64 [10, 20, 40] } ],
    nrows := 3 }

/-- A dataframe with exactly one numeric column. -/
def dsOneNum : Dataset :=
  { cols := [ { name := "species", vals := .obj ["cat", "dog", "cat"] },
              { name := "age", vals := .float64 [1, 2, 3] } ],
    nrows := 3 }

/-- A dataframe whose first numeric column is constant. -/
def dsConst : Dataset :=
  { cols := [ { name := "weight", vals := .float64 [5, 5] },
              { name := "age", vals := .float64 [1, 2] } ],
    nrows := 2 }

/-- A dataframe on which PCA runs (two rows, two numeric features) but
every numeric column is constant, so the total variance is zero. -/
def dsAllConst : Dataset :=
  { cols := [ { name := "weight", vals := .float64 [5, 5] },
              { name := "age", vals := .float64 [3, 3] } ],
    nrows := 2 }

/-! ## Basic lemmas about the rational column statistics -/

theorem dotL_nil_left (b : List ℚ) : dotL [] b = 0 := rfl

theorem dotL_cons_cons (x y : ℚ) (a b : List ℚ) :
    dotL (x :: a) (y :: b) = x * y + dotL a b := rfl

theorem dotL_self_nonneg (a : List ℚ) : 0 ≤ dotL a a := by
  induction a with
  | nil => simp [dotL]
  | cons x xs ih =>
    rw [dotL_cons_cons]
    exact add_nonneg (mul_self_nonneg x) ih

theorem dotL_comm (a b : List ℚ) : dotL a b = dotL b a := by
  induction a generalizing b with
  | nil => cases b <;> rfl
  | cons x xs ih =>
    cases b with
    | nil => rfl
    | cons y ys => rw [dotL_cons_cons, dotL_cons_cons, ih, mul_comm]

/-- Cauchy-Schwarz for the truncating dot product. -/
theorem dotL_sq_le (a b : List ℚ) : (dotL a b) ^ 2 ≤ dotL a a * dotL b b := by
  induction a generalizing b with
  | nil => simp [dotL]
  | cons x xs ih =>
    cases b with
    | nil => simp [dotL]
    | cons y ys =>
      have h := ih ys
      have hA := dotL_self_nonneg xs
      have hB := dotL_self_nonneg ys
      rw [dotL_cons_cons, dotL_cons_cons, dotL_cons_cons]
      rcases eq_or_lt_of_le hB with hB0 | hBpos
      · have hS0 : dotL xs ys = 0 := by
          have h2 : dotL xs ys ^ 2 ≤ 0 := by rw [← hB0] at h; simpa using h
          have h3 : dotL xs ys ^ 2 = 0 := le_antisymm h2 (sq_nonneg _)
          exact pow_eq_zero_iff (two_ne_zero) |>.mp h3
        rw [hS0, ← hB0]
        nlinarith [mul_nonneg hA (mul_self_nonneg y)]
      · nlinarith [sq_nonneg (x * dotL ys ys - y * dotL xs ys),
          mul_nonneg (add_nonneg (mul_self_nonneg y) hB) (sub_nonneg.mpr h), hBpos]

theorem sum_map_sub_const (v : List ℚ) (m : ℚ) :
    (v.map (fun x => x - m)).sum = v.sum - v.length * m := by
  induction v with
  | nil => simp
  | cons x xs ih => simp [ih]; ring

/-- Centering makes the column sum exactly zero. -/
theorem colCentered_sum (v : List ℚ) : (colCentered v).sum = 0 := by
  cases v with
  | nil => rfl
  | cons x xs =>
    rw [colCentered, sum_map_sub_const, colMean]
    have hn : ((x :: xs).length : ℚ) ≠ 0 := by
      simp only [List.length_cons, Nat.cast_add, Nat.cast_one]
      exact Nat.cast_add_one_ne_zero _
    field_simp

theorem popVar_nonneg (v : List ℚ) : 0 ≤ popVar v :=
  div_nonneg (dotL_self_nonneg _) (Nat.cast_nonneg _)

theorem popVar_nil : popVar [] = 0 := by norm_num [popVar, dotL]

theorem colCentered_singleton (a : ℚ) : colCentered [a] = [0] := by
  simp [colCentered, colMean]

/-- A column with positive population variance has a positive centered
square sum and at least two rows. -/
theorem dotL_pos_of_popVar_pos {v : List ℚ} (h : 0 < popVar v) :
    0 < dotL (colCentered v) (colCentered v) ∧ 2 ≤ v.length := by
  have hd : 0 < dotL (colCentered v) (colCentered v) := by
    by_contra hc
    push_neg at hc
    have h0 : dotL (colCentered v) (colCentered v) = 0 :=
      le_antisymm hc (dotL_self_nonneg _)
    rw [popVar, h0, zero_div] at h
    exact lt_irrefl 0 h
  refine ⟨hd, ?_⟩
  match v with
  | [] => rw [popVar_nil] at h; exact absurd h (lt_irrefl 0)
  | [a] =>
    rw [colCentered_singleton] at hd
    simp [dotL] at hd
  | a :: b :: t => simp

/-! ## Lemmas about the standardizer -/

theorem dotL_self_eq_sum_sq (l : List ℚ) :
    dotL l l = (l.map (fun x => x * x)).sum := by
  induction l with
  | nil => rfl
  | cons x xs ih => rw [dotL_cons_cons, ih, List.map_cons, List.sum_cons]

theorem eq_replicate_of_const {v : List ℚ} (hc : isConstCol v) :
    v = List.replicate v.length (v.headD 0) :=
  List.eq_replicate_of_mem hc

theorem dotL_replicate_zero (n : ℕ) :
    dotL (List.replicate n 0) (List.replicate n 0) = 0 := by
  induction n with
  | zero => rfl
  | succ m ih => rw [List.replicate_succ, dotL_cons_cons, ih]; ring

/-- Centering a constant column yields the all-zero column. -/
theorem colCentered_of_const {v : List ℚ} (hc : isConstCol v) :
    colCentered v = List.replicate v.length 0 := by
  cases hv : v with
  | nil => rfl
  | cons x xs =>
    subst hv
    have hn : ((x :: xs).length : ℚ) ≠ 0 := by
      simp only [List.length_cons, Nat.cast_add, Nat.cast_one]
      exact Nat.cast_add_one_ne_zero _
    have hrep : x :: xs = List.replicate (x :: xs).length x := by
      refine List.eq_replicate_of_mem (fun y hy => ?_)
      exact (hc y hy).trans rfl
    have hsum : (x :: xs).sum = ((x :: xs).length : ℚ) * x := by
      conv_lhs => rw [hrep]
      rw [List.sum_replicate, nsmul_eq_mul]
    have hmean : colMean (x :: xs) = x := by
      rw [colMean, hsum, mul_div_cancel_left₀ _ hn]
    rw [colCentered, hmean]
    conv_lhs => rw [hrep]
    rw [List.map_replicate, sub_self]

/-- A constant column has zero population variance. -/
theorem popVar_of_const {v : List ℚ} (hc : isConstCol v) : popVar v = 0 := by
  rw [popVar, colCentered_of_const hc, dotL_replicate_zero, zero_div]

/-- On a constant column the fitted scale is the unit divisor 1. -/
theorem scaleOf_of_const {v : List ℚ} (hc : isConstCol v) : scaleOf v = 1 := by
  rw [scaleOf, if_pos (popVar_of_const hc)]

/-- Standardizing a constant column yields 0.0 in every row. -/
theorem standardizeCol_of_const {v : List ℚ} (hc : isConstCol v) :
    standardizeCol v = List.replicate v.length 0 := by
  rw [standardizeCol, scaleOf_of_const hc, colCentered_of_const hc,
    List.map_replicate]
  norm_num

theorem standardizeCol_length (v : List ℚ) :
    (standardizeCol v).length = v.length := by
  simp [standardizeCol, colCentered]

theorem sum_map_cast_div (l : List ℚ) (s : ℝ) :
    (l.map (fun x => ((x : ℚ) : ℝ) / s)).sum = ((l.sum : ℚ) : ℝ) / s := by
  induction l with
  | nil => simp
  | cons x xs ih =>
    rw [List.map_cons, List.sum_cons, ih, List.sum_cons]
    push_cast
    rw [add_div]

/-- The standardized column sums to zero exactly. -/
theorem standardizeCol_sum (v : List ℚ) : (standardizeCol v).sum = 0 := by
  rw [standardizeCol, sum_map_cast_div, colCentered_sum]
  norm_num

theorem colMeanR_standardizeCol (v : List ℚ) : colMeanR (standardizeCol v) = 0 := by
  rw [colMeanR, standardizeCol_sum, zero_div]

theorem colCenteredR_of_sum_zero {w : List ℝ} (h : w.sum = 0) :
    colCenteredR w = w := by
  rw [colCenteredR, colMeanR, h, zero_div]
  simp

theorem dotR_self_eq_sum_sq (w : List ℝ) :
    dotR w w = (w.map (fun x => x * x)).sum := by
  induction w with
  | nil => rfl
  | cons x xs ih =>
    rw [dotR, List.zipWith_cons_cons, List.sum_cons, ← dotR, ih, List.map_cons,
      List.sum_cons]

theorem sum_map_cast_div_sq (l : List ℚ) (s : ℝ) :
    ((l.map (fun x => ((x : ℚ) : ℝ) / s)).map (fun x => x * x)).sum
      = ((dotL l l : ℚ) : ℝ) / (s * s) := by
  rw [dotL_self_eq_sum_sq]
  induction l with
  | nil => simp
  | cons x xs ih =>
    simp only [List.map_cons, List.sum_cons] at ih ⊢
    rw [ih, div_mul_div_comm]
    push_cast
    rw [add_div]

/-- The standardized column has population variance exactly 1 whenever the
original column has positive variance. -/
theorem popVarR_standardizeCol {v : List ℚ} (h : 0 < popVar v) :
    popVarR (standardizeCol v) = 1 := by
  have hne : v ≠ [] := by
    intro hnil
    rw [hnil, popVar_nil] at h
    exact lt_irrefl 0 h
  have hn : (v.length : ℚ) ≠ 0 :=
    Nat.cast_ne_zero.mpr (List.length_pos.mpr hne).ne'
  have hdot : dotL (colCentered v) (colCentered v) = popVar v * v.length := by
    rw [popVar, div_mul_cancel₀ _ hn]
  have hvar : ((popVar v : ℚ) : ℝ) ≠ 0 := by
    exact_mod_cast h.ne'
  have hscale : scaleOf v * scaleOf v = ((popVar v : ℚ) : ℝ) := by
    rw [scaleOf, if_neg h.ne', Real.mul_self_sqrt (by exact_mod_cast h.le)]
  rw [popVarR, colCenteredR_of_sum_zero (standardizeCol_sum v),
    standardizeCol_length, dotR_self_eq_sum_sq, standardizeCol,
    sum_map_cast_div_sq, hscale, hdot]
  have hnR : ((v.length : ℕ) : ℝ) ≠ 0 := by exact_mod_cast hn
  push_cast
  field_simp

/-- The standardized column has population standard deviation exactly 1. -/
theorem popStdR_standardizeCol {v : List ℚ} (h : 0 < popVar v) :
    popStdR (standardizeCol v) = 1 := by
  rw [popStdR, popVarR_standardizeCol h, Real.sqrt_one]

/-- The per-cell formula of the standardizer in the non-degenerate case. -/
theorem standardizeCol_formula {v : List ℚ} (h : 0 < popVar v) :
    standardizeCol v
      = v.map (fun x => ((x - colMean v : ℚ) : ℝ) / Real.sqrt ((popVar v : ℚ) : ℝ)) := by
  rw [standardizeCol, scaleOf, if_neg h.ne', colCentered, List.map_map]
  rfl

/-! ## Lemmas about the numeric feature subset -/

theorem contains_dtypeStr_eq_isNumeric (cv : ColVals) :
    selectDtypesInclude.contains cv.dtypeStr = cv.isNumeric := by
  cases cv <;> rfl

theorem ColVals.numVals_length {cv : ColVals} (h : cv.isNumeric = true) :
    cv.numVals.length = cv.length := by
  cases cv with
  | int64 vs => exact List.length_map vs (Int.cast : ℤ → ℚ)
  | float64 vs => rfl
  | obj vs => simp [ColVals.isNumeric] at h

theorem mem_numericColVals {ds : Dataset} {v : List ℚ} (hv : v ∈ numericColVals ds) :
    ∃ c ∈ ds.cols, c.vals.isNumeric = true ∧ v = c.vals.numVals := by
  rw [numericColVals] at hv
  obtain ⟨c, hc, rfl⟩ := List.mem_map.mp hv
  have hfilter := List.mem_filter.mp hc
  refine ⟨c, hfilter.1, ?_, rfl⟩
  rw [← contains_dtypeStr_eq_isNumeric]
  exact hfilter.2

theorem numericColVals_length {ds : Dataset} (hwf : ds.Wellformed) :
    ∀ v ∈ numericColVals ds, v.length = ds.nrows := by
  intro v hv
  obtain ⟨c, hcmem, hnum, rfl⟩ := mem_numericColVals hv
  rw [ColVals.numVals_length hnum, hwf c hcmem]

/-! ## Lemmas about head -/

theorem ColVals.length_take (n : ℕ) (cv : ColVals) :
    (cv.take n).length = min n cv.length := by
  cases cv <;> simp [ColVals.take, ColVals.length]

theorem ColVals.take_of_length_le {cv : ColVals} {n : ℕ} (h : cv.length ≤ n) :
    cv.take n = cv := by
  cases cv with
  | int64 vs => exact congrArg ColVals.int64 (List.take_of_length_le h)
  | float64 vs => exact congrArg ColVals.float64 (List.take_of_length_le h)
  | obj vs => exact congrArg ColVals.obj (List.take_of_length_le h)

theorem ColVals.take_eq_take_min {cv : ColVals} {m : ℕ} (n : ℕ) (h : cv.length = m) :
    cv.take n = cv.take (min n m) := by
  rcases le_total n m with hle | hle
  · rw [min_eq_left hle]
  · rw [min_eq_right hle, ColVals.take_of_length_le (h ▸ hle),
      ColVals.take_of_length_le (le_of_eq h)]

/-! ## C6: the raw-data preview -/

/-- C6: for a well-formed dataframe and any slider value N in [5, 50],
df.head(N) has exactly min(N, total_rows) rows, keeps every column name,
and each column holds the first min(N, total_rows) of its values in
original order; when N is at least the row count it returns the whole
dataframe unchanged (no error). -/
theorem preview_first_min_rows (ds : Dataset) (N : ℕ) (hwf : ds.Wellformed)
    (h5 : 5 ≤ N) (h50 : N ≤ 50) :
    (ds.head N).nrows = min N ds.nrows ∧
    (ds.head N).Wellformed ∧
    (ds.head N).colNames = ds.colNames ∧
    (ds.head N).cols.map (·.vals) = ds.cols.map (fun c => c.vals.take (min N ds.nrows)) ∧
    (ds.nrows ≤ N → ds.head N = ds) := by
  obtain ⟨cols, nr⟩ := ds
  refine ⟨rfl, ?_, ?_, ?_, ?_⟩
  · intro c hc
    simp only [Dataset.head, List.mem_map] at hc
    obtain ⟨c0, hc0, rfl⟩ := hc
    have hlen := hwf c0 hc0
    simp only [ColVals.length_take, hlen]
    rfl
  · simp [Dataset.head, Dataset.colNames]
  · simp only [Dataset.head, List.map_map]
    refine List.map_congr_left (fun c hc => ?_)
    have hlen := hwf c hc
    simp only [Function.comp]
    rw [ColVals.take_eq_take_min N hlen]
  · intro hle
    simp only [Dataset.head, min_eq_right hle]
    have hcols : cols.map (fun c => Column.mk c.name (c.vals.take N)) = cols := by
      have h1 : cols.map (fun c => Column.mk c.name (c.vals.take N))
          = cols.map (fun c => c) :=
        List.map_congr_left (fun c hc => by
          rw [ColVals.take_of_length_le ((hwf c hc).le.trans hle)])
      rw [h1, List.map_id']
    rw [hcols]

/-- C6 witness at the mixed dataframe with slider value 10. -/
theorem preview_first_min_rows_witness :
    dsMix.Wellformed ∧ 5 ≤ 10 ∧ 10 ≤ 50 ∧
    ((dsMix.head 10).nrows = min 10 dsMix.nrows ∧
      (dsMix.head 10).Wellformed ∧
      (dsMix.head 10).colNames = dsMix.colNames ∧
      (dsMix.head 10).cols.map (·.vals)
        = dsMix.cols.map (fun c => c.vals.take (min 10 dsMix.nrows)) ∧
      (dsMix.nrows ≤ 10 → dsMix.head 10 = dsMix)) :=
  ⟨by decide, by decide, by decide,
    preview_first_min_rows dsMix 10 (by decide) (by decide) (by decide)⟩

/-! ## C8: the numeric feature subset -/

/-- C8: numeric_features is exactly the name list of the columns whose
declared dtype is int64 or float64, obtained by filtering the columns in
place, hence in original column order (a sublist of the column names). -/
theorem numeric_features_exactly_numeric_dtypes (ds : Dataset) :
    numeric_features ds = (ds.cols.filter (fun c => c.vals.isNumeric)).map (·.name) ∧
    List.Sublist (numeric_features ds) ds.colNames := by
  have hfilter : ds.cols.filter (fun c => selectDtypesInclude.contains c.vals.dtypeStr)
      = ds.cols.filter (fun c => c.vals.isNumeric) :=
    List.filter_congr (fun c _ => contains_dtypeStr_eq_isNumeric c.vals)
  constructor
  · rw [numeric_features, hfilter]
  · rw [numeric_features]
    exact (List.filter_sublist _).map _

/-! ## C9: determinism of the re-run -/

/-- C9: a second interaction with the same source and the same slider
values renders exactly the same output: the loader returns the memoized
dataframe and every downstream stage is a pure function of it and of the
widget parameters. -/
theorem pipeline_deterministic_rerun (src : Dataset) (n1 n2 : ℕ) :
    (runOnce src (runOnce src none n1 n2).1 n1 n2).2 = (runOnce src none n1 n2).2 := rfl

/-! ## C2 and C10: the degenerate standardization -/

/-- C2: on a constant numeric column the standardization step is total (no
unhandled error) and produces the defined fallback value 0.0 for every
row: sklearn replaces the zero scale by 1 and the centered values are 0. -/
theorem scaler_constant_column_no_error (ds : Dataset) (v : List ℚ)
    (hv : v ∈ numericColVals ds) (hc : isConstCol v) :
    standardizeCol v ∈ df_standardized ds ∧
    (standardizeCol v).length = v.length ∧
    ∀ x ∈ standardizeCol v, x = 0 := by
  refine ⟨List.mem_map_of_mem _ hv, standardizeCol_length v, ?_⟩
  rw [standardizeCol_of_const hc]
  intro x hx
  exact List.eq_of_mem_replicate hx

/-- C2 witness at the dataframe whose first numeric column is constant. -/
theorem scaler_constant_column_no_error_witness :
    ([5, 5] : List ℚ) ∈ numericColVals dsConst ∧ isConstCol [(5 : ℚ), 5] ∧
    (standardizeCol [5, 5] ∈ df_standardized dsConst ∧
      (standardizeCol [(5 : ℚ), 5]).length = 2 ∧
      ∀ x ∈ standardizeCol [(5 : ℚ), 5], x = 0) :=
  ⟨by decide, by decide,
    scaler_constant_column_no_error dsConst [5, 5] (by decide) (by decide)⟩

/-- C10: on a zero-variance column the fitted scale is the unit divisor 1,
so the output column is exactly 0.0 in every row. -/
theorem scaler_unit_divisor_on_constant (ds : Dataset) (v : List ℚ)
    (hv : v ∈ numericColVals ds) (hc : isConstCol v) :
    popVar v = 0 ∧ scaleOf v = 1 ∧
    standardizeCol v = List.replicate v.length 0 ∧
    standardizeCol v ∈ df_standardized ds :=
  ⟨popVar_of_const hc, scaleOf_of_const hc, standardizeCol_of_const hc,
    List.mem_map_of_mem _ hv⟩

/-- C10 witness at the dataframe whose first numeric column is constant. -/
theorem scaler_unit_divisor_on_constant_witness :
    ([5, 5] : List ℚ) ∈ numericColVals dsConst ∧ isConstCol [(5 : ℚ), 5] ∧
    (popVar [(5 : ℚ), 5] = 0 ∧ scaleOf [5, 5] = 1 ∧
      standardizeCol [5, 5] = List.replicate 2 0 ∧
      standardizeCol [5, 5] ∈ df_standardized dsConst) :=
  ⟨by decide, by decide,
    scaler_unit_divisor_on_constant dsConst [5, 5] (by decide) (by decide)⟩

/-! ## C4: standardization of a positive-variance column -/

/-- C4: on a numeric column with positive population variance the
standardizer computes (x - mean) / sqrt(popVar) cellwise, and the
transformed column has mean exactly 0 and population standard deviation
exactly 1 (the approximate claims hold with zero error in exact
arithmetic). -/
theorem scaler_zscore_standardizes (ds : Dataset) (v : List ℚ)
    (hv : v ∈ numericColVals ds) (hvar : 0 < popVar v) :
    standardizeCol v
        = v.map (fun x => ((x - colMean v : ℚ) : ℝ) / Real.sqrt ((popVar v : ℚ) : ℝ)) ∧
    standardizeCol v ∈ df_standardized ds ∧
    colMeanR (standardizeCol v) = 0 ∧
    popStdR (standardizeCol v) = 1 :=
  ⟨standardizeCol_formula hvar, List.mem_map_of_mem _ hv,
    colMeanR_standardizeCol v, popStdR_standardizeCol hvar⟩

/-- C4 witness at the age column of the mixed dataframe. -/
theorem scaler_zscore_standardizes_witness :
    ([1, 2, 3] : List ℚ) ∈ numericColVals dsMix ∧ 0 < popVar [(1 : ℚ), 2, 3] ∧
    (standardizeCol [1, 2, 3]
        = ([1, 2, 3] : List ℚ).map
            (fun x => ((x - colMean [1, 2, 3] : ℚ) : ℝ)
              / Real.sqrt ((popVar [(1 : ℚ), 2, 3] : ℚ) : ℝ)) ∧
      standardizeCol [1, 2, 3] ∈ df_standardized dsMix ∧
      colMeanR (standardizeCol [1, 2, 3]) = 0 ∧
      popStdR (standardizeCol [1, 2, 3]) = 1) :=
  ⟨by decide, by norm_num [popVar, colCentered, colMean, dotL],
    scaler_zscore_standardizes dsMix [1, 2, 3] (by decide)
      (by norm_num [popVar, colCentered, colMean, dotL])⟩

/-! ## C1: what happens with fewer than 2 numeric columns -/

/-- C1 (amended): the script has no local handler.  With exactly one
numeric column the correlation heatmap and the standardizer succeed, but
the PCA fit raises, and since nothing catches it the whole page render
aborts with that error. -/
theorem pca_error_aborts_render (ds : Dataset) (n1 n2 : ℕ)
    (h1 : (numeric_features ds).length = 1) :
    appRender ds n1 n2
      = Except.error "PCA: n_components=2 must be between 0 and min(n_samples, n_features)" := by
  rw [appRender, h1]
  have hmin : ¬ (2 ≤ min ds.nrows 1) := by omega
  simp [hmin]

/-- C1 witness: the one-numeric-column dataframe aborts with the PCA error. -/
theorem pca_error_aborts_render_witness :
    (numeric_features dsOneNum).length = 1 ∧
    appRender dsOneNum 10 10
      = Except.error "PCA: n_components=2 must be between 0 and min(n_samples, n_features)" :=
  ⟨by decide, pca_error_aborts_render dsOneNum 10 10 (by decide)⟩

/-- C1 counterexample: on a dataframe with exactly one numeric column the
render does not complete with an informational message; it aborts. -/
theorem insufficient_features_not_caught_cex :
    (appRender dsOneNum 10 10).isOk = false := by
  have h1 : (numeric_features dsOneNum).length = 1 := by decide
  rw [appRender, h1]
  have hmin : ¬ (2 ≤ min dsOneNum.nrows 1) := by omega
  simp [hmin, Except.isOk, Except.toBool]

/-! ## C3: the correlation matrix -/

theorem pearson_self {x : List ℚ} (hx : 0 < popVar x) : pearson x x = 1 := by
  obtain ⟨hd, hlx⟩ := dotL_pos_of_popVar_pos hx
  have hq : (0 : ℝ)
      < ((dotL (colCentered x) (colCentered x) : ℚ) : ℝ) / ((x.length : ℝ) - 1) := by
    apply div_pos
    · exact_mod_cast hd
    · have h2 : (2 : ℝ) ≤ (x.length : ℝ) := by exact_mod_cast hlx
      linarith
  rw [pearson, sampleStd, Real.mul_self_sqrt hq.le, sampleCov]
  exact div_self hq.ne'

theorem pearson_comm {x y : List ℚ} (hlen : x.length = y.length) :
    pearson x y = pearson y x := by
  rw [pearson, pearson, sampleCov, sampleCov, dotL_comm, hlen, mul_comm]

theorem abs_pearson_le_one {x y : List ℚ} (hx : 0 < popVar x) (hy : 0 < popVar y)
    (hlen : x.length = y.length) : |pearson x y| ≤ 1 := by
  obtain ⟨hdx, hlx⟩ := dotL_pos_of_popVar_pos hx
  obtain ⟨hdy, _⟩ := dotL_pos_of_popVar_pos hy
  have hq : (0 : ℝ) < (x.length : ℝ) - 1 := by
    have h2 : (2 : ℝ) ≤ (x.length : ℝ) := by exact_mod_cast hlx
    linarith
  have hA : (0 : ℝ) < ((dotL (colCentered x) (colCentered x) : ℚ) : ℝ) := by exact_mod_cast hdx
  have hB : (0 : ℝ) < ((dotL (colCentered y) (colCentered y) : ℚ) : ℝ) := by exact_mod_cast hdy
  have hCS : ((dotL (colCentered x) (colCentered y) : ℚ) : ℝ) ^ 2
      ≤ ((dotL (colCentered x) (colCentered x) : ℚ) : ℝ)
        * ((dotL (colCentered y) (colCentered y) : ℚ) : ℝ) := by
    exact_mod_cast dotL_sq_le (colCentered x) (colCentered y)
  rw [pearson, sampleCov, sampleStd, sampleStd, ← hlen]
  rw [← Real.sqrt_mul (by positivity)]
  have hden : (0 : ℝ)
      < Real.sqrt (((dotL (colCentered x) (colCentered x) : ℚ) : ℝ) / ((x.length : ℝ) - 1)
          * (((dotL (colCentered y) (colCentered y) : ℚ) : ℝ) / ((x.length : ℝ) - 1))) := by
    apply Real.sqrt_pos.mpr
    positivity
  rw [abs_div, abs_of_pos hden, div_le_one hden]
  have habs : |((dotL (colCentered x) (colCentered y) : ℚ) : ℝ) / ((x.length : ℝ) - 1)|
      = Real.sqrt ((((dotL (colCentered x) (colCentered y) : ℚ) : ℝ) / ((x.length : ℝ) - 1)) ^ 2) :=
    (Real.sqrt_sq_eq_abs _).symm
  rw [habs]
  apply Real.sqrt_le_sqrt
  rw [div_pow, div_mul_div_comm, ← pow_two ((x.length : ℝ) - 1)]
  exact (div_le_div_right (by positivity)).mpr hCS

/-- C3 (amended): over a well-formed dataframe all of whose numeric
columns have positive variance, the correlation matrix (indexed on both
sides by the numeric feature subset, hence square) is symmetric, has all
entries in [-1, 1], and has unit diagonal.  For a constant column pandas
produces NaN entries instead (see the counterexample), so the
positive-variance hypothesis is necessary. -/
theorem corr_matrix_symmetric_bounded_unit_diag (ds : Dataset) (hwf : ds.Wellformed)
    (hvar : ∀ v ∈ numericColVals ds, 0 < popVar v)
    (i j : ℕ) (hi : i < (numericColVals ds).length) (hj : j < (numericColVals ds).length) :
    corr_matrix ds i j = corr_matrix ds j i ∧
    -1 ≤ corr_matrix ds i j ∧ corr_matrix ds i j ≤ 1 ∧
    corr_matrix ds i i = 1 := by
  have hmemi : (numericColVals ds).getD i [] ∈ numericColVals ds := by
    rw [List.getD_eq_getElem (numericColVals ds) [] hi]
    exact List.getElem_mem hi
  have hmemj : (numericColVals ds).getD j [] ∈ numericColVals ds := by
    rw [List.getD_eq_getElem (numericColVals ds) [] hj]
    exact List.getElem_mem hj
  have hvi := hvar _ hmemi
  have hvj := hvar _ hmemj
  have hlen : ((numericColVals ds).getD i []).length = ((numericColVals ds).getD j []).length := by
    rw [numericColVals_length hwf _ hmemi, numericColVals_length hwf _ hmemj]
  have habs := abs_pearson_le_one hvi hvj hlen
  refine ⟨pearson_comm hlen, ?_, ?_, pearson_self hvi⟩
  · exact (abs_le.mp habs).1
  · exact (abs_le.mp habs).2

/-- C3 witness at the mixed dataframe, whose two numeric columns both have
positive variance. -/
theorem corr_matrix_symmetric_bounded_unit_diag_witness :
    dsMix.Wellformed ∧ (∀ v ∈ numericColVals dsMix, 0 < popVar v) ∧
    0 < (numericColVals dsMix).length ∧ 1 < (numericColVals dsMix).length ∧
    (corr_matrix dsMix 0 1 = corr_matrix dsMix 1 0 ∧
      -1 ≤ corr_matrix dsMix 0 1 ∧ corr_matrix dsMix 0 1 ≤ 1 ∧
      corr_matrix dsMix 0 0 = 1) := by
  have hvar : ∀ v ∈ numericColVals dsMix, 0 < popVar v := by
    intro v hv
    have hv2 : v = [(1 : ℚ), 2, 3] ∨ v = [(10 : ℚ), 20, 40] := by
      have : numericColVals dsMix = [[(1 : ℚ), 2, 3], [(10 : ℚ), 20, 40]] := by decide
      rw [this] at hv
      simpa using hv
    rcases hv2 with rfl | rfl <;> norm_num [popVar, colCentered, colMean, dotL]
  exact ⟨by decide, hvar, by decide, by decide,
    corr_matrix_symmetric_bounded_unit_diag dsMix (by decide) hvar 0 1
      (by decide) (by decide)⟩

/-- C3 counterexample: on the dataframe whose first numeric column is the
constant [5, 5], the diagonal entry of the correlation matrix at that
column is 0 (the junk value the model gives the 0/0 that pandas renders
as NaN), not 1.0, and it misses 1.0 by far more than the stated 1e-9
tolerance. -/
theorem corr_matrix_diag_not_one_cex :
    corr_matrix dsConst 0 0 = 0 ∧
    (1 : ℝ) / 1000000000 < |corr_matrix dsConst 0 0 - 1| := by
  have h0 : (numericColVals dsConst).getD 0 [] = [5, 5] := by decide
  have hcc : colCentered [(5 : ℚ), 5] = [0, 0] := by
    norm_num [colCentered, colMean]
  have hcov : sampleCov [(5 : ℚ), 5] [5, 5] = 0 := by
    rw [sampleCov, hcc]
    norm_num [dotL]
  have hp : pearson [(5 : ℚ), 5] [5, 5] = 0 := by
    rw [pearson, hcov, zero_div]
  have hm : corr_matrix dsConst 0 0 = 0 := by
    rw [corr_matrix, h0, hp]
  refine ⟨hm, ?_⟩
  rw [hm]
  norm_num

/-! ## C7: the combined describe table -/

/-- C7: on a dataframe with both numeric and non-numeric columns,
describe(include="all") yields one combined table whose column list is all
dataframe columns, whose row set is the union of the numeric and object
statistic names, every column carrying one (possibly blank) cell per
statistic row; statistics undefined for a column type are the blank cell
none rather than an error. -/
theorem describe_all_combined_table (ds : Dataset)
    (hn : ds.hasNumericCol = true) (ho : ds.hasObjectCol = true) :
    (describe_all ds).2.map Prod.fst = ds.colNames ∧
    (describe_all ds).1 = mixedStatNames ∧
    (describe_all ds).1.toFinset = numericStatNames.toFinset ∪ objectStatNames.toFinset ∧
    (∀ p ∈ (describe_all ds).2, p.2.length = (describe_all ds).1.length) ∧
    (∀ c ∈ ds.cols, c.vals.isNumeric = false →
      ∀ s ∈ (["mean", "std", "min", "25%", "50%", "75%", "max"] : List String),
        descEntry s c = none) ∧
    (∀ c ∈ ds.cols, c.vals.isNumeric = true →
      ∀ s ∈ (["unique", "top", "freq"] : List String), descEntry s c = none) := by
  have hstats : describeStatNames ds = mixedStatNames := by
    rw [describeStatNames, hn, ho]
    rfl
  refine ⟨?_, hstats, ?_, ?_, ?_, ?_⟩
  · rw [describe_all, Dataset.colNames]
    rw [List.map_map]
    rfl
  · have h1 : (describe_all ds).1 = mixedStatNames := hstats
    rw [h1]
    decide
  · intro p hp
    rw [describe_all] at hp ⊢
    obtain ⟨c, _, rfl⟩ := List.mem_map.mp hp
    exact List.length_map _ _
  · intro c _ hobj s hs
    match hcv : c.vals with
    | .int64 vs => rw [hcv] at hobj; simp [ColVals.isNumeric] at hobj
    | .float64 vs => rw [hcv] at hobj; simp [ColVals.isNumeric] at hobj
    | .obj vs =>
      rw [descEntry, hcv]
      fin_cases hs <;> simp [descEntryObj]
  · intro c _ hnum s hs
    match hcv : c.vals with
    | .obj vs => rw [hcv] at hnum; simp [ColVals.isNumeric] at hnum
    | .int64 vs =>
      rw [descEntry, hcv]
      fin_cases hs <;> simp [descEntryNum]
    | .float64 vs =>
      rw [descEntry, hcv]
      fin_cases hs <;> simp [descEntryNum]

/-- C7 witness at the mixed dataframe. -/
theorem describe_all_combined_table_witness :
    dsMix.hasNumericCol = true ∧ dsMix.hasObjectCol = true ∧
    ((describe_all dsMix).2.map Prod.fst = dsMix.colNames ∧
      (describe_all dsMix).1 = mixedStatNames ∧
      (describe_all dsMix).1.toFinset
        = numericStatNames.toFinset ∪ objectStatNames.toFinset ∧
      (∀ p ∈ (describe_all dsMix).2, p.2.length = (describe_all dsMix).1.length) ∧
      (∀ c ∈ dsMix.cols, c.vals.isNumeric = false →
        ∀ s ∈ (["mean", "std", "min", "25%", "50%", "75%", "max"] : List String),
          descEntry s c = none) ∧
      (∀ c ∈ dsMix.cols, c.vals.isNumeric = true →
        ∀ s ∈ (["unique", "top", "freq"] : List String), descEntry s c = none)) :=
  ⟨by decide, by decide, describe_all_combined_table dsMix (by decide) (by decide)⟩

/-! ## C5: the PCA explained-variance fractions -/

/-- The sum of the eigenvalues of a real symmetric matrix is its trace. -/
theorem sum_eigenvalues_eq_trace {k : ℕ} {A : Matrix (Fin k) (Fin k) ℝ}
    (hA : A.IsHermitian) : ∑ i, hA.eigenvalues i = A.trace := by
  conv_rhs => rw [hA.spectral_theorem]
  rw [Matrix.trace_mul_cycle, unitary.coe_star_mul_self, one_mul,
    Matrix.trace_diagonal]
  simp [RCLike.ofReal_real_eq_id]

theorem pcaMatrix_apply (ds : Dataset) (t : Fin ds.nrows)
    (j : Fin (numericColVals ds).length) :
    pcaMatrix ds t j = (standardizeCol ((numericColVals ds).get j)).getD t 0 := by
  rw [pcaMatrix, Matrix.of_apply, colCenteredR_of_sum_zero (standardizeCol_sum _)]

theorem pcaGram_diag (ds : Dataset) (j : Fin (numericColVals ds).length) :
    pcaGram ds j j = ∑ t, pcaMatrix ds t j * pcaMatrix ds t j := by
  rw [pcaGram, Matrix.mul_apply]
  refine Finset.sum_congr rfl fun t _ => ?_
  rw [Matrix.conjTranspose_apply, star_trivial]

theorem sum_fin_getD_mul_self (w : List ℝ) {n : ℕ} (hl : w.length = n) :
    ∑ t : Fin n, (w.getD t 0) * (w.getD t 0) = (w.map (fun x => x * x)).sum := by
  subst hl
  conv_rhs => rw [← List.ofFn_get w]
  rw [List.map_ofFn, List.sum_ofFn]
  refine Finset.sum_congr rfl (fun t _ => ?_)
  rw [List.getD_eq_getElem w 0 t.isLt]
  rfl

/-- The squared entries of a standardized positive-variance column sum to
the row count. -/
theorem sum_sq_standardizeCol {v : List ℚ} (h : 0 < popVar v) :
    ((standardizeCol v).map (fun x => x * x)).sum = (v.length : ℝ) := by
  have h1 := popVarR_standardizeCol h
  rw [popVarR, colCenteredR_of_sum_zero (standardizeCol_sum v),
    dotR_self_eq_sum_sq, standardizeCol_length] at h1
  have hne : v ≠ [] := by
    intro hnil
    rw [hnil, popVar_nil] at h
    exact lt_irrefl 0 h
  have hn : ((v.length : ℕ) : ℝ) ≠ 0 := by
    exact_mod_cast (List.length_pos.mpr hne).ne'
  field_simp at h1
  exact h1

theorem sum_map_mul_self_nonneg (w : List ℝ) :
    0 ≤ (w.map (fun x => x * x)).sum := by
  apply List.sum_nonneg
  intro x hx
  obtain ⟨y, _, rfl⟩ := List.mem_map.mp hx
  exact mul_self_nonneg y

theorem pcaGram_diag_nonneg (ds : Dataset) (j : Fin (numericColVals ds).length) :
    0 ≤ pcaGram ds j j := by
  rw [pcaGram_diag]
  exact Finset.sum_nonneg fun t _ => mul_self_nonneg _

/-- The trace of the scatter matrix is positive as soon as one numeric
column has positive variance (and there is at least one row). -/
theorem pcaGram_trace_pos (ds : Dataset) (hwf : ds.Wellformed) (hr : 0 < ds.nrows)
    (hvar : ∃ v ∈ numericColVals ds, 0 < popVar v) :
    0 < (pcaGram ds).trace := by
  obtain ⟨v, hv, hpv⟩ := hvar
  obtain ⟨j, hj⟩ := List.mem_iff_get.mp hv
  have hterm : pcaGram ds j j = (ds.nrows : ℝ) := by
    rw [pcaGram_diag]
    have hlen : (standardizeCol ((numericColVals ds).get j)).length = ds.nrows := by
      rw [standardizeCol_length, hj, numericColVals_length hwf v hv]
    simp only [pcaMatrix_apply]
    rw [sum_fin_getD_mul_self _ hlen, hj, sum_sq_standardizeCol hpv,
      numericColVals_length hwf v hv]
  rw [Matrix.trace]
  refine Finset.sum_pos' (fun i _ => pcaGram_diag_nonneg ds i) ⟨j, Finset.mem_univ j, ?_⟩
  rw [Matrix.diag_apply, hterm]
  exact_mod_cast hr

theorem div_div_div_cancel_of_ne {x S c : ℝ} (hc : c ≠ 0) : x / c / (S / c) = x / S := by
  rw [div_div, mul_comm c (S / c), div_mul_cancel₀ _ hc]

/-- C5 (amended): when PCA runs (at least 2 rows and 2 numeric features)
AND at least one numeric column is non-constant, the reported explained
variance fractions are well-defined real numbers (not the NaN of the
degenerate 0/0, see the counterexample), each lies in [0, 1], they sum to
at most 1, and the PC1 fraction is at least the PC2 fraction.  When every
numeric column is constant PCA still runs but the fractions are NaN, so
the original unconditional claim is false. -/
theorem pca_explained_variance_frac_props (ds : Dataset) (hwf : ds.Wellformed)
    (hn : 2 ≤ ds.nrows) (hk : 2 ≤ (numericColVals ds).length)
    (hvar : ∃ v ∈ numericColVals ds, 0 < popVar v) :
    explained_variance_ratio_or_nan ds 0 = some (explained_variance_ratio ds 0) ∧
    explained_variance_ratio_or_nan ds 1 = some (explained_variance_ratio ds 1) ∧
    (0 ≤ explained_variance_ratio ds 0 ∧ explained_variance_ratio ds 0 ≤ 1) ∧
    (0 ≤ explained_variance_ratio ds 1 ∧ explained_variance_ratio ds 1 ≤ 1) ∧
    explained_variance_ratio ds 0 + explained_variance_ratio ds 1 ≤ 1 ∧
    explained_variance_ratio ds 1 ≤ explained_variance_ratio ds 0 := by
  haveI h1 : IsTotal ℝ (fun a b => b ≤ a) := ⟨fun a b => le_total b a⟩
  haveI h2 : IsTrans ℝ (fun a b => b ≤ a) := ⟨fun a b c hab hbc => le_trans hbc hab⟩
  have hperm : (pcaEigsSorted ds).Perm
      (List.ofFn (pcaGram_posSemidef ds).1.eigenvalues) :=
    List.perm_insertionSort _ _
  have hsorted : (pcaEigsSorted ds).Sorted (fun a b => b ≤ a) :=
    List.sorted_insertionSort _ _
  have hpos : ∀ x ∈ pcaEigsSorted ds, 0 ≤ x := by
    intro x hx
    have hx2 := hperm.mem_iff.mp hx
    rw [List.mem_ofFn] at hx2
    obtain ⟨i, rfl⟩ := hx2
    exact (pcaGram_posSemidef ds).eigenvalues_nonneg i
  have hsum : (pcaEigsSorted ds).sum = (pcaGram ds).trace := by
    rw [hperm.sum_eq, List.sum_ofFn, sum_eigenvalues_eq_trace]
  have hS : 0 < (pcaEigsSorted ds).sum := by
    rw [hsum]
    exact pcaGram_trace_pos ds hwf (by omega) hvar
  have hlen : 2 ≤ (pcaEigsSorted ds).length := by
    rw [pcaEigsSorted, List.length_insertionSort, List.length_ofFn]
    exact hk
  obtain ⟨a, rest, hA1⟩ : ∃ a rest, pcaEigsSorted ds = a :: rest := by
    cases hL : pcaEigsSorted ds with
    | nil => rw [hL] at hlen; simp at hlen
    | cons a rest => exact ⟨a, rest, rfl⟩
  obtain ⟨b, t, hB1⟩ : ∃ b t, rest = b :: t := by
    cases hR : rest with
    | nil => rw [hA1, hR] at hlen; simp at hlen
    | cons b t => exact ⟨b, t, rfl⟩
  rw [hB1] at hA1
  have hqpos : (0 : ℝ) < (ds.nrows : ℝ) - 1 := by
    have h2 : (2 : ℝ) ≤ (ds.nrows : ℝ) := by exact_mod_cast hn
    linarith
  have hq : ((ds.nrows : ℝ) - 1) ≠ 0 := hqpos.ne'
  have hdef : ∀ i : ℕ,
      explained_variance_ratio_or_nan ds i = some (explained_variance_ratio ds i) := by
    intro i
    rw [explained_variance_ratio_or_nan, if_neg (div_pos hS hqpos).ne']
  have hratio : ∀ i : ℕ, explained_variance_ratio ds i
      = (pcaEigsSorted ds).getD i 0 / (pcaEigsSorted ds).sum := by
    intro i
    rw [explained_variance_ratio, explained_variance, div_div_div_cancel_of_ne hq]
  have ha_mem : a ∈ pcaEigsSorted ds := by rw [hA1]; exact List.mem_cons_self a _
  have hb_mem : b ∈ pcaEigsSorted ds := by
    rw [hA1]
    exact List.mem_cons_of_mem a (List.mem_cons_self b t)
  have ha0 : 0 ≤ a := hpos a ha_mem
  have hb0 : 0 ≤ b := hpos b hb_mem
  have hts : 0 ≤ t.sum := by
    apply List.sum_nonneg
    intro x hx
    refine hpos x ?_
    rw [hA1]
    exact List.mem_cons_of_mem a (List.mem_cons_of_mem b hx)
  have hsum_abt : (pcaEigsSorted ds).sum = a + (b + t.sum) := by
    rw [hA1, List.sum_cons, List.sum_cons]
  have hg0 : (pcaEigsSorted ds).getD 0 0 = a := by rw [hA1]; rfl
  have hg1 : (pcaEigsSorted ds).getD 1 0 = b := by rw [hA1]; rfl
  have hba : b ≤ a := by
    rw [hA1] at hsorted
    exact (List.sorted_cons.mp hsorted).1 b (List.mem_cons_self b t)
  have haS : a ≤ (pcaEigsSorted ds).sum := List.single_le_sum hpos a ha_mem
  have habS : a + b ≤ (pcaEigsSorted ds).sum := by
    rw [hsum_abt]
    linarith
  refine ⟨hdef 0, hdef 1, ⟨?_, ?_⟩, ⟨?_, ?_⟩, ?_, ?_⟩
  · rw [hratio 0, hg0]
    exact div_nonneg ha0 hS.le
  · rw [hratio 0, hg0, div_le_one hS]
    exact haS
  · rw [hratio 1, hg1]
    exact div_nonneg hb0 hS.le
  · rw [hratio 1, hg1, div_le_one hS]
    rw [hsum_abt]
    linarith
  · rw [hratio 0, hratio 1, hg0, hg1, div_add_div_same, div_le_one hS]
    exact habS
  · rw [hratio 0, hratio 1, hg0, hg1]
    exact (div_le_div_iff_of_pos_right hS).mpr hba

/-- C5 witness at the mixed dataframe (3 rows, 2 non-constant numeric
columns). -/
theorem pca_explained_variance_frac_props_witness :
    dsMix.Wellformed ∧ 2 ≤ dsMix.nrows ∧ 2 ≤ (numericColVals dsMix).length ∧
    (∃ v ∈ numericColVals dsMix, 0 < popVar v) ∧
    (explained_variance_ratio_or_nan dsMix 0 = some (explained_variance_ratio dsMix 0) ∧
      explained_variance_ratio_or_nan dsMix 1 = some (explained_variance_ratio dsMix 1) ∧
      (0 ≤ explained_variance_ratio dsMix 0 ∧ explained_variance_ratio dsMix 0 ≤ 1) ∧
      (0 ≤ explained_variance_ratio dsMix 1 ∧ explained_variance_ratio dsMix 1 ≤ 1) ∧
      explained_variance_ratio dsMix 0 + explained_variance_ratio dsMix 1 ≤ 1 ∧
      explained_variance_ratio dsMix 1 ≤ explained_variance_ratio dsMix 0) := by
  have hvar : ∃ v ∈ numericColVals dsMix, 0 < popVar v := by
    refine ⟨[1, 2, 3], by decide, ?_⟩
    norm_num [popVar, colCentered, colMean, dotL]
  exact ⟨by decide, by decide, by decide, hvar,
    pca_explained_variance_frac_props dsMix (by decide) (by decide) (by decide) hvar⟩

theorem pcaEigsSorted_sum_eq_trace (ds : Dataset) :
    (pcaEigsSorted ds).sum = (pcaGram ds).trace := by
  have hperm : (pcaEigsSorted ds).Perm
      (List.ofFn (pcaGram_posSemidef ds).1.eigenvalues) :=
    List.perm_insertionSort _ _
  rw [hperm.sum_eq, List.sum_ofFn, sum_eigenvalues_eq_trace]

theorem standardizeCol_getD_zero_of_const {v : List ℚ} (hc : isConstCol v) (t : ℕ) :
    (standardizeCol v).getD t 0 = 0 := by
  rw [standardizeCol_of_const hc]
  rcases lt_or_ge t (List.replicate v.length (0 : ℝ)).length with hlt | hge
  · rw [List.getD_eq_getElem _ _ hlt]
    exact List.getElem_replicate _ _
  · exact List.getD_eq_default _ _ hge

/-- C5 counterexample: on a dataframe with two rows and two constant
numeric columns PCA runs (n_components = 2 = min(n_samples, n_features),
so no error is raised), but the total variance is zero and the reported
explained-variance fractions are the NaN of the 0/0 division, not real
numbers in [0, 1]: the original claim fails on a dataset on which PCA
runs. -/
theorem pca_ratio_nan_on_all_constant_cex :
    2 ≤ dsAllConst.nrows ∧ 2 ≤ (numericColVals dsAllConst).length ∧
    (pcaEigsSorted dsAllConst).sum = 0 ∧
    explained_variance_ratio_or_nan dsAllConst 0 = none ∧
    explained_variance_ratio_or_nan dsAllConst 1 = none := by
  have hconst : ∀ v ∈ numericColVals dsAllConst, isConstCol v := by decide
  have htrace : (pcaGram dsAllConst).trace = 0 := by
    rw [Matrix.trace]
    apply Finset.sum_eq_zero
    intro j _
    rw [Matrix.diag_apply, pcaGram_diag]
    apply Finset.sum_eq_zero
    intro t _
    have hj : (numericColVals dsAllConst).get j ∈ numericColVals dsAllConst :=
      List.get_mem _ _ j.isLt
    rw [pcaMatrix_apply, standardizeCol_getD_zero_of_const (hconst _ hj), mul_zero]
  have hsum0 : (pcaEigsSorted dsAllConst).sum = 0 := by
    rw [pcaEigsSorted_sum_eq_trace, htrace]
  refine ⟨by decide, by decide, hsum0, ?_, ?_⟩ <;>
  · rw [explained_variance_ratio_or_nan, hsum0]
    norm_num
